import Mathlib

/-!
Verification development for the pyksnk MOR-dictionary / morcomb engine
(`pyksnk/mordict.py`, `pyksnk/morcomb.py`,
`examples/pyksnk/mordict/check_duplicated_phon_gloss.py`).

The Python domain model is embedded shallowly:

* text sinks (`typing.TextIO` buffers) are modelled by the string of
  characters written so far; a `dump_mordict` method becomes a function
  returning the written text (for `Lex_Entry.dump_mordict`, which inspects
  the sink via `seekable`/`tell`/`read`, the function additionally takes the
  sink's look-back capability and prior contents and returns the full final
  contents);
* `lark.tree.Meta` becomes `TreeMeta`; nodes synthesized in Lean carry
  `none` (no claim below depends on concrete positions);
* the pandas DataFrame produced by `Dictionary.to_dataframe` is modelled as
  the list of its rows (`PdRow`), each carrying the MultiIndex key and the
  five columns; the random negative placeholder indices are supplied by an
  explicit oracle argument;
* the lark LALR grammar at the bottom of `mordict.py` is re-expressed as a
  fuelled recursive-descent parser over `List Char`, one function per
  production, with the terminal regexes replicated as greedy scans and the
  `%ignore`d inline whitespace skipped before each anchor token.
-/

/-- Source span attached by lark (`lark.tree.Meta`): we keep the fields that
the code reads (`line`, `column`, `empty`). -/
structure TreeMeta where
  line : Int
  column : Int
  empty : Bool
deriving Repr, DecidableEq

/-- `Comment` node: `value` is the comment text, `comments` the (recursively)
anchored comments inherited from `MorDict_Base`. -/
inductive Comment where
  | mk (meta : Option TreeMeta) (value : String) (comments : List Comment)
deriving Repr

def Comment.meta : Comment → Option TreeMeta
  | .mk m _ _ => m

def Comment.value : Comment → String
  | .mk _ v _ => v

def Comment.comments : Comment → List Comment
  | .mk _ _ cs => cs

/-- Characters removed by Python `str.strip()` (ASCII portion). -/
def isPyStripSpace (c : Char) : Bool :=
  c == ' ' || c == '\t' || c == '\n' || c == '\r' || c == '\x0b' || c == '\x0c'

/-- Python `str.strip()`. -/
def pyStrip (s : String) : String :=
  ⟨((s.data.dropWhile isPyStripSpace).reverse.dropWhile isPyStripSpace).reverse⟩

mutual
/-- Serialization of a `Comment`, following
`MorDict_SingleFixedValue.dump_mordict` with `delimiter_beginning = "% "`,
`delimiter_end = "\n"`, `is_omittable = True`: the content is written only
when `value` is non-empty; with comments enabled, a single space precedes the
anchored comments when there are any. -/
def Comment.dump_mordict (wc : Bool) : Comment → String
  | .mk _ v cs =>
    (if v ≠ "" then "% " ++ v ++ "\n" else "")
      ++ (if wc then (if cs.isEmpty then "" else " ") ++ Comment.dumpList cs else "")

/-- The `for c in self.comments: c.dump_mordict(buffer, with_comments=True)`
loop shared by all `dump_mordict` implementations. -/
def Comment.dumpList : List Comment → String
  | [] => ""
  | c :: cs => Comment.dump_mordict true c ++ Comment.dumpList cs
end

/-- The trailing-comment block of `MorDict_SingleFixedValue.dump_mordict`
(and of `Cat.dump_mordict`): when `with_comments` is set, write a single
space if the comment list is non-empty, then dump each comment. -/
def commentBlock (wc : Bool) (cs : List Comment) : String :=
  if wc then (if cs.isEmpty then "" else " ") ++ Comment.dumpList cs else ""

/-- `Phon`: surface form; `delimiter_beginning = delimiter_end = ""`,
`is_omittable = False`. -/
structure Phon where
  meta : Option TreeMeta
  value : String
  comments : List Comment
deriving Repr

/-- `Phon.dump_mordict`: `is_omittable` is `False`, so the delimiters (both
empty strings) and the value are always written, even for an empty value. -/
def Phon.dump_mordict (p : Phon) (wc : Bool) : String :=
  ("" ++ p.value ++ "") ++ commentBlock wc p.comments

/-- `Sem`: translation; delimiters `=`/`=`, `is_omittable = True`. -/
structure Sem where
  meta : Option TreeMeta
  value : String
  comments : List Comment
deriving Repr

def Sem.dump_mordict (s : Sem) (wc : Bool) : String :=
  (if s.value ≠ "" then "=" ++ s.value ++ "=" else "") ++ commentBlock wc s.comments

/-- `Gloss`: lemmatization; delimiters `"`/`"`, `is_omittable = True`. -/
structure Gloss where
  meta : Option TreeMeta
  value : String
  comments : List Comment
deriving Repr

def Gloss.dump_mordict (g : Gloss) (wc : Bool) : String :=
  (if g.value ≠ "" then "\"" ++ g.value ++ "\"" else "") ++ commentBlock wc g.comments

/-- `Preamble`: delimiters `@`/newline, `is_omittable = True`. -/
structure Preamble where
  meta : Option TreeMeta
  value : String
  comments : List Comment
deriving Repr

def Preamble.dump_mordict (p : Preamble) (wc : Bool) : String :=
  (if p.value ≠ "" then "@" ++ p.value ++ "\n" else "") ++ commentBlock wc p.comments

/-- The `value` of a `Cat_AttrVal` is either a single string or a list of
strings, distinguished by arity in the transformer (`item_cat_attrval`). -/
inductive AttrValValue where
  | str (s : String)
  | list (l : List String)
deriving Repr, DecidableEq

/-- `Cat_AttrVal`: one `[key value]` feature bracket. -/
structure Cat_AttrVal where
  meta : Option TreeMeta
  comments : List Comment
  key : String
  value : AttrValValue
deriving Repr

/-- `Cat_AttrVal.dump_mordict`: `[`, key, one space, the value (a list is
joined with single spaces), `]`.  The source never dumps the anchored
comments of a `Cat_AttrVal`, matching `Cat_AttrVal.dump_mordict`. -/
def Cat_AttrVal.dump_mordict (a : Cat_AttrVal) : String :=
  "[" ++ a.key ++ " "
    ++ (match a.value with
        | .str s => s
        | .list l => " ".intercalate l)
    ++ "]"

/-- `Cat`: ordered feature brackets between `{` and `}`. -/
structure Cat where
  meta : Option TreeMeta
  comments : List Comment
  attrvals : List Cat_AttrVal
deriving Repr

def Cat.dump_mordict (c : Cat) (wc : Bool) : String :=
  "\x7b" ++ String.join (c.attrvals.map Cat_AttrVal.dump_mordict) ++ "\x7d"
    ++ commentBlock wc c.comments

/-- `Cat.__getitem__`: `filter(lambda item: item.key == key, self.attrvals)`,
the (fully forced) iterator of attrvals whose key matches. -/
def Cat.getitem (c : Cat) (key : String) : List Cat_AttrVal :=
  c.attrvals.filter (fun item => item.key == key)

/-- `Lex_Entry`: one word entry.  The attrs class is declared with
`frozen = True`; `enabled` is declared with `cmp = False`. -/
structure Lex_Entry where
  meta : Option TreeMeta
  comments : List Comment
  phon : Phon
  cat : Cat
  sem : Sem
  gloss : Gloss
  enabled : Bool
deriving Repr

/-- First pass of the disabled-entry flattening:
`.replace("\r\n", " ")`. -/
def replaceCrLfPairs : List Char → List Char
  | '\r' :: '\n' :: rest => ' ' :: replaceCrLfPairs rest
  | c :: rest => c :: replaceCrLfPairs rest
  | [] => []

/-- The chained `.replace("\r\n", " ").replace("\n", " ").replace("\r", " ")`
applied to the internal buffer of a disabled entry. -/
def flattenNewlines (s : String) : String :=
  ⟨(replaceCrLfPairs s.data).map (fun c => if c == '\n' || c == '\r' then ' ' else c)⟩

/-- Text that `Lex_Entry.dump_mordict` writes to the output sink before its
final newline bookkeeping.  In the `enabled` branch everything goes to the
sink.  In the disabled branch the source dumps `phon`, `cat`, `sem`, `gloss`
into an internal `StringIO` (later flattened), but the `buffer.write("\t")`
and the two conditional `buffer.write(" ")` separators target the real sink,
so they precede the `"% DISABLED: "` marker there.  In both branches the
entry's own anchored comments follow, with no separator logic. -/
def Lex_Entry.bodyText (e : Lex_Entry) (wc : Bool) : String :=
  (if e.enabled then
    e.phon.dump_mordict wc ++ "\t" ++ e.cat.dump_mordict wc
      ++ (if e.sem.value ≠ "" then " " else "") ++ e.sem.dump_mordict wc
      ++ (if e.gloss.value ≠ "" then " " else "") ++ e.gloss.dump_mordict wc
  else
    "\t" ++ (if e.sem.value ≠ "" then " " else "")
      ++ (if e.gloss.value ≠ "" then " " else "")
      ++ "% DISABLED: "
      ++ flattenNewlines
          (e.phon.dump_mordict wc ++ e.cat.dump_mordict wc
            ++ e.sem.dump_mordict wc ++ e.gloss.dump_mordict wc))
    ++ (if wc then Comment.dumpList e.comments else "")

/-- `Lex_Entry.dump_mordict`.  `prior` is what the sink already contains and
`seekable` its look-back capability; the result is the final sink contents.
After writing `bodyText`, the source inspects the last character when the
sink is seekable and appends `"\n"` only if it is neither `'\n'` nor `'\r'`;
a non-seekable sink gets an unconditional `"\n"`.  The `getLast? = none`
branch is unreachable in the source's uses (the body always contains a tab,
and `StringIO.seek(-1)` would raise on an empty buffer). -/
def Lex_Entry.dump_mordict (e : Lex_Entry) (wc : Bool) (seekable : Bool)
    (prior : String) : String :=
  let full := prior ++ e.bodyText wc
  if seekable then
    match full.data.getLast? with
    | some c => if c = '\n' ∨ c = '\r' then full else full ++ "\n"
    | none => full
  else full ++ "\n"

/-- `MorDict_Base.print_mordict` specialised to `Lex_Entry`: dump into a
fresh `io.StringIO` (seekable, initially empty) and return its value. -/
def Lex_Entry.print_mordict (e : Lex_Entry) (wc : Bool) : String :=
  e.dump_mordict wc true ""

/-- Attribute assignment on a `Lex_Entry`.  The class is created with
`attr.s(frozen = True)` (mordict.py line 443), whose generated
`__setattr__` unconditionally raises `FrozenInstanceError`. -/
def Lex_Entry.setattr_enabled (_ : Lex_Entry) (_ : Bool) :
    Except String Lex_Entry :=
  .error "FrozenInstanceError"

/-!
Value equality.  attrs generates `__eq__` from the fields declared with
`cmp = True`: `value` for the single-value classes, `key`/`value` for
`Cat_AttrVal`, `attrvals` for `Cat`, and `phon`/`cat`/`sem`/`gloss` for
`Lex_Entry`; `meta`, `comments` and `enabled` are declared `cmp = False`.
-/

def Phon.pyEq (a b : Phon) : Bool := a.value == b.value

def Sem.pyEq (a b : Sem) : Bool := a.value == b.value

def Gloss.pyEq (a b : Gloss) : Bool := a.value == b.value

def Cat_AttrVal.pyEq (a b : Cat_AttrVal) : Bool :=
  a.key == b.key && a.value == b.value

def catAttrValListPyEq : List Cat_AttrVal → List Cat_AttrVal → Bool
  | [], [] => true
  | a :: as', b :: bs => Cat_AttrVal.pyEq a b && catAttrValListPyEq as' bs
  | _, _ => false

def Cat.pyEq (a b : Cat) : Bool := catAttrValListPyEq a.attrvals b.attrvals

def Lex_Entry.pyEq (a b : Lex_Entry) : Bool :=
  Phon.pyEq a.phon b.phon && Cat.pyEq a.cat b.cat
    && Sem.pyEq a.sem b.sem && Gloss.pyEq a.gloss b.gloss

/-!
Tabular bridge.  The pandas DataFrame built by `Dictionary.to_dataframe` is
modelled as the list of its rows; each row carries the MultiIndex key
(`dict_name`, `line`, `column`) and the columns `Phon`, `Category`,
`Overall Semantics`, `Morphological Analysis`, `enabled`.
-/

/-- One row of the DataFrame form of a dictionary. -/
structure PdRow where
  dict_name : String
  line : Int
  column : Int
  phon : Phon
  cat : Cat
  sem : Sem
  gloss : Gloss
  enabled : Bool
deriving Repr

/-- `Dictionary`: mutable aggregate root. -/
structure Dictionary where
  meta : Option TreeMeta
  comments : List Comment
  name : String
  preambles : List Preamble
  contents : List Lex_Entry
deriving Repr

/-- `Lex_Entry.get_dataframe_index`: use the source position when a non-empty
`meta` is present, otherwise two (random, negative) placeholders — supplied
here by the explicit `fresh` oracle standing for `_gen_rand_neg()`. -/
def Lex_Entry.get_dataframe_index (e : Lex_Entry) (name : String)
    (fresh : Int × Int) : String × Int × Int :=
  match e.meta with
  | some m => if !m.empty then (name, m.line, m.column) else (name, fresh.1, fresh.2)
  | none => (name, fresh.1, fresh.2)

/-- Row construction underlying `Dictionary.to_dataframe`: the `i`-th entry
contributes the data tuple `lex.to_tuple()` under the index
`lex.get_dataframe_index(self.name)`; `fresh i` supplies the placeholder
pair for the `i`-th entry when it has no usable position. -/
def toDataframeRows (name : String) (fresh : Nat → Int × Int) :
    List Lex_Entry → Nat → List PdRow
  | [], _ => []
  | e :: es, i =>
    let idx := e.get_dataframe_index name (fresh i)
    { dict_name := idx.1, line := idx.2.1, column := idx.2.2,
      phon := e.phon, cat := e.cat, sem := e.sem, gloss := e.gloss,
      enabled := e.enabled } :: toDataframeRows name fresh es (i + 1)

/-- `Dictionary.to_dataframe`. -/
def Dictionary.to_dataframe (d : Dictionary) (fresh : Nat → Int × Int) :
    List PdRow :=
  toDataframeRows d.name fresh d.contents 0

/-- `Dictionary.dataframe_to_entries`: rebuild entries from the rows' column
cells (the very objects stored there), with `meta = None` and
`comments = []`; the index is discarded entirely. -/
def Dictionary.dataframe_to_entries (rows : List PdRow) : List Lex_Entry :=
  rows.map (fun r =>
    { phon := r.phon, cat := r.cat, sem := r.sem, gloss := r.gloss,
      enabled := r.enabled, meta := none, comments := [] })

/-!
Scoring/masking pipeline (`check_duplicated_phon_gloss.py`).  The script
computes, per row, `check_dup = (Phon, tuple-of-scat-values, Sem)` and
`touch = line > 10000`, groups the table by `check_dup` and applies
`del_redundant` to each group.  Grouping compares the fingerprint
components by attrs value-equality, so the fingerprint is modelled by the
underlying values.  `del_redundant` is modelled per row with its group
recovered as the rows sharing its fingerprint, which leaves every row's
`enabled` cell exactly as the pandas pipeline does (the claims below are
about the cells, not about the group-sorted order in which
`groupby(...).apply` happens to concatenate the groups).
-/

/-- The `scats` projection: the `value` of every `"scat"` bracket, in order
(`tuple(map(lambda kv: kv.value, c["scat"]))`). -/
def scatProjection (c : Cat) : List AttrValValue :=
  (Cat.getitem c "scat").map (fun a => a.value)

/-- The grouping fingerprint `check_dup`. -/
def fingerprint (r : PdRow) : String × List AttrValValue × String :=
  (r.phon.value, scatProjection r.cat, r.sem.value)

/-- `len(tuple(c["comp"]))`: number of `"comp"` brackets. -/
def compCount (c : Cat) : Nat := (Cat.getitem c "comp").length

/-- `score = having_comp + having_gloss`. -/
def rowScore (r : PdRow) : Nat :=
  compCount r.cat + (if r.gloss.value ≠ "" then 1 else 0)

/-- The rows of `r`'s `groupby("check_dup")` group, in table order. -/
def rowGroup (rows : List PdRow) (r : PdRow) : List PdRow :=
  rows.filter (fun x => decide (fingerprint x = fingerprint r))

/-- `score.max()` over the group of `r`. -/
def groupMaxScore (rows : List PdRow) (r : PdRow) : Nat :=
  ((rowGroup rows r).map rowScore).foldl max 0

/-- `dic_pd_gr.apply(del_redundant)` restricted to the `enabled` column:
a row is assigned `enabled = False` exactly when `touch` holds (its line
exceeds 10000) and its score differs from its group's maximum; every other
row is left untouched. -/
def maskRedundant (rows : List PdRow) : List PdRow :=
  rows.map (fun r =>
    if r.line > 10000 ∧ rowScore r ≠ groupMaxScore rows r then
      { r with enabled := false }
    else r)

/-!
Parser.  The lark grammar `_grammar` (LALR, `propagate_positions`) together
with the transformer `__Transformer` is re-expressed as one fuelled
recursive-descent function per production over `List Char`.  Terminals are
replicated as greedy scans of their regexes; the `%ignore`d `_WS_INLINE`
(`/[ \t\f]+/`) is skipped before every anchor/identifier token (the value
terminals `SEM`, `GLOSS`, `COMMENT`, `PREAMBLE` match whitespace themselves
and therefore absorb it, exactly as lark's longest-match lexing does).
Positions (`propagate_positions`) are not modelled: every parsed node
carries `meta = none`; no claim below depends on a concrete position.
-/

/-- `_WS_INLINE: /[ \t\f]+/` (ignored). -/
def isWsInline (c : Char) : Bool := c == ' ' || c == '\t' || c == '\x0c'

def skipWs (l : List Char) : List Char := l.dropWhile isWsInline

/-- Python regex `\s` (ASCII portion), used in `PHON: /\w[^\s{%]*/`. -/
def isPyRegexSpace (c : Char) : Bool :=
  c == ' ' || c == '\t' || c == '\n' || c == '\r' || c == '\x0b' || c == '\x0c'

/-- Python regex `\w` (ASCII portion; the sources under test are ASCII). -/
def isPyWordChar (c : Char) : Bool := c.isAlphanum || c == '_'

/-- Continuation characters of `PHON: /\w[^\s{%]*/`. -/
def isPhonTailChar (c : Char) : Bool :=
  !isPyRegexSpace c && c != '\x7b' && c != '%'

/-- Characters of `CAT_ATTR` / `CAT_VALUE`: `/[^{\[\]%\s]+/`. -/
def isCatTokChar (c : Char) : Bool :=
  !isPyRegexSpace c && c != '\x7b' && c != '[' && c != ']' && c != '%'

/-- Greedy non-empty token of characters satisfying `p`, after skipping
ignored inline whitespace. -/
def takeTok (p : Char → Bool) (l : List Char) : Option (String × List Char) :=
  let s := skipWs l
  let t := s.takeWhile p
  if t.isEmpty then none else some (⟨t⟩, s.dropWhile p)

/-- One `_EOL: /(\r\n?|\r?\n)/` terminal. -/
def parseEol : List Char → Option (List Char)
  | '\r' :: '\n' :: rest => some rest
  | '\r' :: rest => some rest
  | '\n' :: rest => some rest
  | _ => none

/-- `_EOL*` (with ignored inline whitespace between the EOL tokens); returns
the input unchanged — whitespace not followed by an EOL included — when no
further EOL token is found. -/
def eolRun (fuel : Nat) (l : List Char) : List Char :=
  match fuel with
  | 0 => l
  | fuel + 1 =>
    match parseEol (skipWs l) with
    | some r => eolRun fuel r
    | none => l

/-- `adj_comment: "%" COMMENT? _EOL+` followed by the transformer
`adj_comment` rule (strip the token, join — i.e. the stripped text, or `""`
when the `COMMENT` token is absent). -/
def parseAdjComment (fuel : Nat) (l : List Char) : Option (Comment × List Char) :=
  match skipWs l with
  | c :: r =>
    if c = '%' then
      let txt := r.takeWhile (fun x => !(x == '\r' || x == '\n'))
      let r1 := r.dropWhile (fun x => !(x == '\r' || x == '\n'))
      match parseEol r1 with
      | some r2 => some (.mk none (pyStrip ⟨txt⟩) [], eolRun fuel r2)
      | none => none
    else none
  | [] => none

/-- `adj_comment*`.  When the lookahead is not `"%"` the run ends with the
input untouched; a malformed comment (no terminating end-of-line) fails. -/
def parseAdjComments (fuel : Nat) (l : List Char) :
    Option (List Comment × List Char) :=
  match fuel with
  | 0 => none
  | fuel + 1 =>
    if (skipWs l).head? = some '%' then
      match parseAdjComment fuel l with
      | some (c, r) =>
        match parseAdjComments fuel r with
        | some (cs, r1) => some (c :: cs, r1)
        | none => none
      | none => none
    else some ([], l)

/-- `item_phon: PHON _EOL* adj_comment*` with transformer `item_phon`. -/
def parseItemPhon (fuel : Nat) (l : List Char) : Option (Phon × List Char) :=
  match skipWs l with
  | c :: r =>
    if isPyWordChar c then
      let tok : String := ⟨c :: r.takeWhile isPhonTailChar⟩
      let r1 := eolRun fuel (r.dropWhile isPhonTailChar)
      match parseAdjComments fuel r1 with
      | some (cs, r2) => some ({ meta := none, value := tok, comments := cs }, r2)
      | none => none
    else none
  | [] => none

/-- `item_cat_values: CAT_VALUE*`. -/
def parseCatValues (fuel : Nat) (l : List Char) : List String × List Char :=
  match fuel with
  | 0 => ([], l)
  | fuel + 1 =>
    match takeTok isCatTokChar l with
    | some (v, r) =>
      let (vs, r1) := parseCatValues fuel r
      (v :: vs, r1)
    | none => ([], l)

/-- `item_cat_attrval: "[" item_cat_attr item_cat_values "]" _EOL*
adj_comment*` with transformer `item_cat_attrval` (arity of the value list
decides between the empty string, a scalar and a list). -/
def parseCatAttrVal (fuel : Nat) (l : List Char) :
    Option (Cat_AttrVal × List Char) :=
  match skipWs l with
  | '[' :: r =>
    match takeTok isCatTokChar r with
    | some (key, r1) =>
      let (vals, r2) := parseCatValues fuel r1
      match skipWs r2 with
      | ']' :: r3 =>
        match parseAdjComments fuel (eolRun fuel r3) with
        | some (cs, r4) =>
          let v : AttrValValue :=
            match vals with
            | [] => .str ""
            | [v] => .str v
            | vs => .list vs
          some ({ meta := none, comments := cs, key := key, value := v }, r4)
        | none => none
      | _ => none
    | none => none
  | _ => none

/-- `item_cat_attrval_list: item_cat_attrval*`. -/
def parseCatAttrValList (fuel : Nat) (l : List Char) :
    Option (List Cat_AttrVal × List Char) :=
  match fuel with
  | 0 => none
  | fuel + 1 =>
    if (skipWs l).head? = some '[' then
      match parseCatAttrVal fuel l with
      | some (av, r) =>
        match parseCatAttrValList fuel r with
        | some (avs, r1) => some (av :: avs, r1)
        | none => none
      | none => none
    else some ([], l)

/-- `item_cat: "{" item_cat_attrval_list "}" _EOL* adj_comment*`. -/
def parseItemCat (fuel : Nat) (l : List Char) : Option (Cat × List Char) :=
  match skipWs l with
  | '\x7b' :: r =>
    match parseCatAttrValList fuel r with
    | some (avs, r1) =>
      match skipWs r1 with
      | '\x7d' :: r2 =>
        match parseAdjComments fuel (eolRun fuel r2) with
        | some (cs, r3) =>
          some ({ meta := none, comments := cs, attrvals := avs }, r3)
        | none => none
      | _ => none
    | none => none
  | _ => none

/-- `item_sem: "=" SEM? "=" _EOL* adj_comment*` with transformer `item_sem`:
when the `SEM` token is absent the value is `""` and the comment children —
whose first element then fails the `isinstance(..., lark.Token)` test — are
silently discarded. -/
def parseItemSem (fuel : Nat) (l : List Char) : Option (Sem × List Char) :=
  match skipWs l with
  | '=' :: r =>
    let txt := r.takeWhile (fun c => !(c == '=' || c == '%'))
    match r.dropWhile (fun c => !(c == '=' || c == '%')) with
    | '=' :: r1 =>
      match parseAdjComments fuel (eolRun fuel r1) with
      | some (cs, r2) =>
        if txt.isEmpty then some ({ meta := none, value := "", comments := [] }, r2)
        else some ({ meta := none, value := ⟨txt⟩, comments := cs }, r2)
      | none => none
    | _ => none
  | _ => none

/-- `item_gloss: "\"" GLOSS? "\"" _EOL* adj_comment*` with transformer
`item_gloss`: when the `GLOSS` token is absent but comment children exist,
`children[0].type` raises `AttributeError` (a `Comment` has no `type`
attribute) — modelled as parse failure; with no children at all the value is
the canonical `""`. -/
def parseItemGloss (fuel : Nat) (l : List Char) : Option (Gloss × List Char) :=
  match skipWs l with
  | '"' :: r =>
    let txt := r.takeWhile (fun c => !(c == '"' || c == '%'))
    match r.dropWhile (fun c => !(c == '"' || c == '%')) with
    | '"' :: r1 =>
      match parseAdjComments fuel (eolRun fuel r1) with
      | some (cs, r2) =>
        if txt.isEmpty then
          if cs.isEmpty then some ({ meta := none, value := "", comments := [] }, r2)
          else none
        else some ({ meta := none, value := ⟨txt⟩, comments := cs }, r2)
      | none => none
    | _ => none
  | _ => none

/-- `line: item_phon item_cat item_sem? item_gloss?` with transformer
`line`: the optional items are taken exactly when their distinguishing
lookahead token (`"="` / `"\""`) is next, and default to the canonical empty
`Sem`/`Gloss` (the attrs factories) otherwise; `enabled` is `True`. -/
def parseLine (fuel : Nat) (l : List Char) : Option (Lex_Entry × List Char) :=
  match parseItemPhon fuel l with
  | some (ph, r1) =>
    match parseItemCat fuel r1 with
    | some (ct, r2) =>
      let semStep : Option (Sem × List Char) :=
        if (skipWs r2).head? = some '=' then parseItemSem fuel r2
        else some ({ meta := none, value := "", comments := [] }, r2)
      match semStep with
      | some (se, r3) =>
        let glossStep : Option (Gloss × List Char) :=
          if (skipWs r3).head? = some '"' then parseItemGloss fuel r3
          else some ({ meta := none, value := "", comments := [] }, r3)
        match glossStep with
        | some (gl, r4) =>
          some ({ meta := none, comments := [], phon := ph, cat := ct,
                  sem := se, gloss := gl, enabled := true }, r4)
        | none => none
      | none => none
    | none => none
  | none => none

/-- `entries: line*`: a further line starts exactly when the lookahead is a
`PHON` first character. -/
def parseEntries (fuel : Nat) (l : List Char) :
    Option (List Lex_Entry × List Char) :=
  match fuel with
  | 0 => none
  | fuel + 1 =>
    match (skipWs l).head? with
    | some c =>
      if isPyWordChar c then
        match parseLine fuel l with
        | some (e, r) =>
          match parseEntries fuel r with
          | some (es, r1) => some (e :: es, r1)
          | none => none
        | none => none
      else some ([], l)
    | none => some ([], l)

/-- `item_preamble: "@" PREAMBLE (_EOL+ | adj_comment) adj_comment*` with
transformer `item_preamble` (`PREAMBLE: /[^%\r\n]+/`). -/
def parseItemPreamble (fuel : Nat) (l : List Char) :
    Option (Preamble × List Char) :=
  match skipWs l with
  | '@' :: r =>
    let txt := r.takeWhile (fun c => !(c == '%' || c == '\r' || c == '\n'))
    let r1 := r.dropWhile (fun c => !(c == '%' || c == '\r' || c == '\n'))
    if txt.isEmpty then none
    else
      match r1 with
      | '%' :: _ =>
        match parseAdjComment fuel r1 with
        | some (c0, r2) =>
          match parseAdjComments fuel r2 with
          | some (cs, r3) =>
            some ({ meta := none, value := ⟨txt⟩, comments := c0 :: cs }, r3)
          | none => none
        | none => none
      | _ =>
        match parseEol r1 with
        | some r2 =>
          match parseAdjComments fuel (eolRun fuel r2) with
          | some (cs, r3) => some ({ meta := none, value := ⟨txt⟩, comments := cs }, r3)
          | none => none
        | none => none
  | _ => none

/-- `preambles: item_preamble*`. -/
def parsePreambles (fuel : Nat) (l : List Char) :
    Option (List Preamble × List Char) :=
  match fuel with
  | 0 => none
  | fuel + 1 =>
    if (skipWs l).head? = some '@' then
      match parseItemPreamble fuel l with
      | some (p, r) =>
        match parsePreambles fuel r with
        | some (ps, r1) => some (p :: ps, r1)
        | none => none
      | none => none
    else some ([], l)

/-- `start: _EOL* comments_init preambles _EOL* entries _EOL*` with the
`start` transformer; the whole input must be consumed (up to ignored
trailing inline whitespace), otherwise the parse raises. -/
def parseStart (fuel : Nat) (l : List Char) : Option Dictionary :=
  let r0 := eolRun fuel l
  match parseAdjComments fuel r0 with
  | some (cs, r1) =>
    match parsePreambles fuel r1 with
    | some (ps, r2) =>
      match parseEntries fuel (eolRun fuel r2) with
      | some (es, r3) =>
        if (skipWs (eolRun fuel r3)).isEmpty then
          some { meta := none, comments := cs, name := "",
                 preambles := ps, contents := es }
        else none
      | none => none
    | none => none
  | none => none

/-- `parse(name, text)`: run the parser and install the stream name. -/
def parse (name : String) (text : String) : Option Dictionary :=
  (parseStart (text.data.length + 1) text.data).map fun d => { d with name := name }

/-!
Sentence-annotation model (`pyksnk/morcomb.py`).  `Word` cells may be `None`
after the `itertools.zip_longest` padding in `Word.iter_from_columns`, so
the four fields are modelled as `Option`s; `WordAnalysisCandidates` (an
object with no `__bool__`/`__len__`) is always truthy, a string is truthy
exactly when non-empty, `None` is falsy.
-/

/-- `WordAnalysisCandidates`: alternatives for one word
(`WordAnalysis = str`). -/
structure WordAnalysisCandidates where
  alts : List String
deriving Repr

/-- `WordAnalysisCandidates.__str__`: `"^".join(map(str, self.alts))`. -/
def WordAnalysisCandidates.str (w : WordAnalysisCandidates) : String :=
  "^".intercalate w.alts

/-- `Word`: cells of the four aligned columns (possibly `None` padding). -/
structure Word where
  mor_candidates : Option WordAnalysisCandidates
  comb : Option String
  penn : Option String
  ort : Option String
deriving Repr

/-- `itertools.zip_longest` on two lists (pad the shorter with `None`). -/
def zipLongest2 {γ δ : Type} : List γ → List δ → List (Option γ × Option δ)
  | [], d => d.map (fun x => (none, some x))
  | x :: c, d => (some x, d.head?) :: zipLongest2 c d.tail

/-- `itertools.zip_longest` on three lists. -/
def zipLongest3 {β γ δ : Type} :
    List β → List γ → List δ → List (Option β × Option γ × Option δ)
  | [], c, d => (zipLongest2 c d).map (fun p => (none, p.1, p.2))
  | x :: b, c, d => (some x, c.head?, d.head?) :: zipLongest3 b c.tail d.tail

/-- `itertools.zip_longest` on four lists, as used in
`Word.iter_from_columns`. -/
def zipLongest4 {α β γ δ : Type} : List α → List β → List γ → List δ →
    List (Option α × Option β × Option γ × Option δ)
  | [], b, c, d => (zipLongest3 b c d).map (fun p => (none, p.1, p.2.1, p.2.2))
  | x :: a, b, c, d => (some x, b.head?, c.head?, d.head?) :: zipLongest4 a b.tail c.tail d.tail

/-- `Word.iter_from_columns`: positional zip of the four columns, missing
cells padded with `None`. -/
def Word.iter_from_columns (mor : List WordAnalysisCandidates)
    (comb penn ort : List String) : List Word :=
  (zipLongest4 mor comb penn ort).map fun t =>
    { mor_candidates := t.1, comb := t.2.1, penn := t.2.2.1, ort := t.2.2.2 }

/-- `Sentence`. -/
structure Sentence where
  id_str : String
  chi : String
  words : List Word
deriving Repr

/-- `filter(None, li)` then `map(str, ...)` on a plain-string column:
`None` and `""` cells are falsy and dropped. -/
def truthyStrCells (l : List (Option String)) : List String :=
  l.filterMap fun o =>
    match o with
    | some s => if s = "" then none else some s
    | none => none

/-- `filter(None, li)` then `map(str, ...)` on the `%mor:` column: only the
`None` padding is falsy. -/
def truthyMorCells (l : List (Option WordAnalysisCandidates)) : List String :=
  (l.filterMap id).map WordAnalysisCandidates.str

/-- `Sentence.__str__`: `Word.list_columns_from_words` recovers the four
columns (plain `map`s over the word list), the `%mor:` row joins its
surviving cells with `"\n\t"` (`filter_tabber`) and the other three rows
with `" "` (`filter_spacer`), inside the fixed template. -/
def Sentence.str (s : Sentence) : String :=
  let m := s.words.map (fun w => w.mor_candidates)
  let c := s.words.map (fun w => w.comb)
  let p := s.words.map (fun w => w.penn)
  let o := s.words.map (fun w => w.ort)
  "*CHI:\t" ++ s.chi
    ++ "\n%mor:\t" ++ "\n\t".intercalate (truthyMorCells m)
    ++ "\n%comb:\t" ++ " ".intercalate (truthyStrCells c)
    ++ "\n%penn:\t" ++ " ".intercalate (truthyStrCells p)
    ++ "\n%ort:\t" ++ " ".intercalate (truthyStrCells o)
    ++ "\n@G:\t" ++ s.id_str ++ "\n"

/-!
Auxiliary definitions used by the theorems below: plain string
concatenation, last-character tests, and the concrete instances that the
counterexamples and witnesses evaluate.
-/

/-- Concatenation of a list of strings. -/
def concatStrings : List String → String
  | [] => ""
  | s :: l => s ++ concatStrings l

/-- Whether the last character already written is a newline or a carriage
return (the look-back test of `Lex_Entry.dump_mordict`). -/
def lastCharIsNlOrCr (s : String) : Bool :=
  match s.data.getLast? with
  | some c => c == '\n' || c == '\r'
  | none => false

/-- Whether `s` ends with exactly one newline: its last character is `'\n'`
and the character before it (if any) is not. -/
def endsWithExactlyOneNewline (s : String) : Bool :=
  match s.data.reverse with
  | '\n' :: '\n' :: _ => false
  | '\n' :: _ => true
  | _ => false

/-- The source text of `N` `%`-prefixed comment lines: each line is `%`, the
raw comment text, and a line feed. -/
def renderCommentLines (ts : List String) : List Char :=
  (ts.map (fun t => '%' :: (t.data ++ ['\n']))).flatten

/-- Continuations after which a run of `adj_comment`s stops: the next token
is neither a further `"%"` comment line nor an end-of-line that the last
comment's `_EOL+` would swallow. -/
def stopsCommentRun (rest : List Char) : Bool :=
  ((skipWs rest).head? != some '%') && (parseEol (skipWs rest)).isNone

/-- Shorthand for a comment-free `[key value]` bracket. -/
def mkAttrVal (k v : String) : Cat_AttrVal :=
  { meta := none, comments := [], key := k, value := .str v }

/-- Disabled entry `cat {[scat n]}` with one anchored comment, used to
exercise the disabled-entry serialization path. -/
def entryC1 : Lex_Entry :=
  { meta := none, comments := [.mk none "keep" []],
    phon := { meta := none, value := "cat", comments := [] },
    cat := { meta := none, comments := [], attrvals := [mkAttrVal "scat" "n"] },
    sem := { meta := none, value := "", comments := [] },
    gloss := { meta := none, value := "", comments := [] },
    enabled := false }

/-- The entry produced by parsing `cat\t{[scat n]}` followed by the comment
lines `% hello` and `%`. -/
def entryC2 : Lex_Entry :=
  { meta := none, comments := [],
    phon := { meta := none, value := "cat", comments := [] },
    cat := { meta := none,
             comments := [.mk none "hello" [], .mk none "" []],
             attrvals := [mkAttrVal "scat" "n"] },
    sem := { meta := none, value := "", comments := [] },
    gloss := { meta := none, value := "", comments := [] },
    enabled := true }

/-- The entry of the spec's concrete scenario (once the category is written
with its mandatory braces). -/
def entryC6 : Lex_Entry :=
  { meta := none, comments := [],
    phon := { meta := none, value := "cat", comments := [] },
    cat := { meta := none, comments := [], attrvals := [mkAttrVal "scat" "n"] },
    sem := { meta := none, value := "animal", comments := [] },
    gloss := { meta := none, value := "a feline", comments := [] },
    enabled := true }

/-- A plain enabled entry, used to exercise the frozen-instance behavior. -/
def entryC7 : Lex_Entry :=
  { meta := none, comments := [],
    phon := { meta := none, value := "dog", comments := [] },
    cat := { meta := none, comments := [], attrvals := [mkAttrVal "scat" "n"] },
    sem := { meta := none, value := "", comments := [] },
    gloss := { meta := none, value := "", comments := [] },
    enabled := true }

/-- An enabled entry carrying one anchored comment, dumped to a sink with no
look-back. -/
def entryC8 : Lex_Entry :=
  { meta := none, comments := [.mk none "note" []],
    phon := { meta := none, value := "a", comments := [] },
    cat := { meta := none, comments := [], attrvals := [] },
    sem := { meta := none, value := "", comments := [] },
    gloss := { meta := none, value := "", comments := [] },
    enabled := true }

/-- A table row above the provenance threshold. -/
def mkRowHigh (lin : Int) (gl : String) (avs : List Cat_AttrVal) : PdRow :=
  { dict_name := "d", line := lin, column := 1,
    phon := { meta := none, value := "same", comments := [] },
    cat := { meta := none, comments := [], attrvals := avs },
    sem := { meta := none, value := "", comments := [] },
    gloss := { meta := none, value := gl, comments := [] },
    enabled := true }

/-- Glossless row at line 50000 whose category carries two `comp` brackets. -/
def rowC4a : PdRow :=
  mkRowHigh 50000 "" [mkAttrVal "scat" "n", mkAttrVal "comp" "x", mkAttrVal "comp" "y"]

/-- Glossed row at line 50001 with the same fingerprint and no `comp`
bracket. -/
def rowC4b : PdRow := mkRowHigh 50001 "g" [mkAttrVal "scat" "n"]

/-- Glossless row at line 50000, no `comp` bracket. -/
def rowC4w1 : PdRow := mkRowHigh 50000 "" [mkAttrVal "scat" "n"]

/-- Glossed row at line 50001, same fingerprint and `comp` count as
`rowC4w1`. -/
def rowC4w2 : PdRow := mkRowHigh 50001 "g" [mkAttrVal "scat" "n"]

/-- A category with a duplicated `scat` ascription, for exercising the
key lookup. -/
def catC9 : Cat :=
  { meta := none, comments := [],
    attrvals := [mkAttrVal "scat" "n", mkAttrVal "comp" "x", mkAttrVal "scat" "v"] }

/-!
Theorems.
-/

/-- C1: the claim requires that nothing — in particular no tab and no
leading space — precede the `"% DISABLED: "` marker that a disabled entry
emits.  Evaluating `Lex_Entry.dump_mordict` (via `print_mordict`, i.e. into
a fresh seekable sink) at a disabled `cat {[scat n]}` entry with one
anchored comment shows the sink receives a tab *before* the marker (the
`buffer.write("\t")` of the disabled branch targets the sink, not the
internal buffer), while the flattened substantive content and the anchored
comment do follow the marker as claimed. -/
theorem c1_disabled_entry_leading_tab :
    Lex_Entry.print_mordict entryC1 true
        = "\t% DISABLED: cat\x7b[scat n]\x7d% keep\n"
      ∧ (Lex_Entry.print_mordict entryC1 true).data.head? = some '\t' :=
  ⟨rfl, rfl⟩

/-- C2 (counterexample): parsing `cat\t{[scat n]}` followed by the two
comment lines `% hello` and `%` attaches two `Comment` nodes (so the
attachment half of the claim holds, `N = 2`), but re-serializing with
comments included emits only the non-empty one — the output contains a
single `%` — so the round trip silently discards the bare `%` comment,
refuting the claim. -/
theorem c2_bare_comment_discarded :
    parse "d" "cat\t\x7b[scat n]\x7d\n% hello\n%\n"
        = some { meta := none, comments := [], name := "d", preambles := [],
                 contents := [entryC2] }
      ∧ entryC2.cat.comments.length = 2
      ∧ Lex_Entry.print_mordict entryC2 true = "cat\t\x7b[scat n]\x7d % hello\n"
      ∧ (Lex_Entry.print_mordict entryC2 true).data.count '%' = 1 :=
  ⟨rfl, rfl, rfl, rfl⟩

/-- C6 (counterexample): the claim's exact input `cat\t[scat n] =animal=
"a feline"\n` does not parse — the grammar's `item_cat` production demands a
`{` after the phon, and the input's `[` matches no admissible terminal
there. -/
theorem c6_unbraced_scenario_fails :
    parse "d" "cat\t[scat n] =animal= \"a feline\"\n" = none :=
  rfl

/-- C6 (amended): with the category written inside its mandatory braces,
`cat\t{[scat n]} =animal= "a feline"\n` parses to exactly one enabled entry
with the claimed field values, and serializing that entry reproduces the
line (with its trailing newline). -/
theorem c6_amended_braced_roundtrip :
    parse "d" "cat\t\x7b[scat n]\x7d =animal= \"a feline\"\n"
        = some { meta := none, comments := [], name := "d", preambles := [],
                 contents := [entryC6] }
      ∧ Lex_Entry.print_mordict entryC6 true
        = "cat\t\x7b[scat n]\x7d =animal= \"a feline\"\n" :=
  ⟨rfl, rfl⟩

/-- C7 (counterexample): the claim asserts that assigning `enabled = False`
in place succeeds.  `Lex_Entry` is an `attr.s(frozen = True)` class, whose
generated `__setattr__` raises `FrozenInstanceError` unconditionally, so the
assignment fails; the equality half of the claim does hold (`pyEq` ignores
`enabled`). -/
theorem c7_setattr_raises :
    Lex_Entry.setattr_enabled entryC7 false = .error "FrozenInstanceError"
      ∧ Lex_Entry.pyEq entryC7 { entryC7 with enabled := false } = true :=
  ⟨rfl, rfl⟩

/-- C7 (amended): `enabled` is excluded from value-equality — flipping it on
either side never changes `pyEq` — but the flag is not mutable in place:
attribute assignment always raises `FrozenInstanceError`; disabling is done
by building a new entry (e.g. through the tabular bridge). -/
theorem c7_enabled_excluded_from_eq :
    ∀ (e₁ e₂ : Lex_Entry) (b₁ b₂ : Bool),
      Lex_Entry.pyEq { e₁ with enabled := b₁ } { e₂ with enabled := b₂ }
          = Lex_Entry.pyEq e₁ e₂
        ∧ Lex_Entry.setattr_enabled e₁ b₁ = .error "FrozenInstanceError" :=
  fun _ _ _ _ => ⟨rfl, rfl⟩

/-- C8 (counterexample): dumping an entry that carries an anchored comment
to a sink without look-back appends the unconditional newline after the
comment's own terminating newline, so the serialized unit ends with two
newlines, not exactly one. -/
theorem c8_double_newline :
    Lex_Entry.dump_mordict entryC8 true false "" = "a\t\x7b\x7d% note\n\n"
      ∧ endsWithExactlyOneNewline (Lex_Entry.dump_mordict entryC8 true false "")
          = false :=
  ⟨rfl, rfl⟩

/-- C5: the omission law.  An empty-valued `Sem`/`Gloss` contributes no
characters at all (neither delimiters nor text); a `Phon` always writes its
(empty) delimiters and its full value even when the value is empty; a `Cat`
always writes its `{`/`}` delimiters, and writes exactly `{}` when it has no
feature brackets. -/
theorem c5_omission_law :
    ∀ (m : Option TreeMeta) (v : String) (cs : List Comment)
      (avs : List Cat_AttrVal),
      Sem.dump_mordict { meta := m, value := v, comments := cs } false
          = (if v = "" then "" else "=" ++ v ++ "=")
        ∧ Gloss.dump_mordict { meta := m, value := v, comments := cs } false
          = (if v = "" then "" else "\"" ++ v ++ "\"")
        ∧ Phon.dump_mordict { meta := m, value := v, comments := cs } false
          = "" ++ v ++ ""
        ∧ Cat.dump_mordict { meta := m, comments := cs, attrvals := avs } false
          = "\x7b" ++ String.join (avs.map Cat_AttrVal.dump_mordict) ++ "\x7d"
        ∧ Cat.dump_mordict { meta := m, comments := cs, attrvals := [] } false
          = "\x7b\x7d" := by
  intro m v cs avs
  refine ⟨?_, ?_, ?_, ?_, rfl⟩ <;>
    simp [Sem.dump_mordict, Gloss.dump_mordict, Phon.dump_mordict,
      Cat.dump_mordict, commentBlock, ite_not]

/-- C9: `Cat.__getitem__` yields exactly the attrvals (a sublist, hence in
original order and with duplicates) whose key matches; for an absent key it
yields the empty result instead of raising. -/
theorem c9_getitem_spec :
    ∀ (c : Cat) (k : String),
      (∀ a ∈ Cat.getitem c k, a.key = k)
        ∧ List.Sublist (Cat.getitem c k) c.attrvals
        ∧ (∀ a ∈ c.attrvals, a.key = k → a ∈ Cat.getitem c k)
        ∧ ((∀ a ∈ c.attrvals, a.key ≠ k) → Cat.getitem c k = []) := by
  intro c k
  refine ⟨?_, ?_, ?_, ?_⟩
  · intro a ha
    have := List.of_mem_filter ha
    simpa using this
  · exact List.filter_sublist _
  · intro a ha hk
    exact List.mem_filter.2 ⟨ha, by simpa using hk⟩
  · intro h
    simp only [Cat.getitem, List.filter_eq_nil_iff]
    intro a ha
    simpa using h a ha

/-- Witness for `c9_getitem_spec` at a concrete category with a duplicated
`scat` key and an absent key. -/
theorem c9_getitem_spec_witness :
    mkAttrVal "scat" "n" ∈ Cat.getitem catC9 "scat"
      ∧ Cat.getitem catC9 "zzz" = [] :=
  ⟨(c9_getitem_spec catC9 "scat").2.2.1 (mkAttrVal "scat" "n")
      (by simp [catC9]) rfl,
   (c9_getitem_spec catC9 "zzz").2.2.2 (by decide)⟩

/-- Row-by-row unfolding of `Dictionary.to_dataframe` followed by
`Dictionary.dataframe_to_entries`: whatever start index and placeholder
oracle are used, the reconstruction is the original entry list with `meta`
and `comments` reset. -/
theorem dataframe_roundtrip_aux (name : String) (fresh : Nat → Int × Int) :
    ∀ (es : List Lex_Entry) (i : Nat),
      Dictionary.dataframe_to_entries (toDataframeRows name fresh es i)
        = es.map (fun e => { e with meta := none, comments := [] })
  | [], _ => rfl
  | e :: es, i => by
    simp only [toDataframeRows, Dictionary.dataframe_to_entries, List.map_cons]
    refine congrArg₂ List.cons rfl ?_
    exact dataframe_roundtrip_aux name fresh es (i + 1)

/-- C3: the tabular round trip `dataframe_to_entries (to_dataframe d)`
returns one entry per original entry, in order, with `phon`, `cat`, `sem`,
`gloss` and `enabled` exactly preserved, while `meta` becomes `none` and the
comment list becomes empty — positions and comments never survive the
table. -/
theorem c3_table_roundtrip :
    ∀ (d : Dictionary) (fresh : Nat → Int × Int),
      Dictionary.dataframe_to_entries (d.to_dataframe fresh)
        = d.contents.map (fun e => { e with meta := none, comments := [] }) := by
  intro d fresh
  exact dataframe_roundtrip_aux d.name fresh d.contents 0

/-- The body an entry writes always contains the tab separator, so the sink
is never empty when the final look-back runs. -/
theorem bodyText_has_tab (e : Lex_Entry) (wc : Bool) :
    '\t' ∈ (Lex_Entry.bodyText e wc).data := by
  have h : '\t' ∈ ("\t" : String).data := by decide
  unfold Lex_Entry.bodyText
  by_cases he : e.enabled = true <;>
    simp only [he, if_true, if_false, Bool.false_eq_true, String.data_append,
      List.mem_append, eq_self_iff_true] <;>
    tauto

/-- The sink contents after writing an entry's body are never empty. -/
theorem dump_full_ne (e : Lex_Entry) (wc : Bool) (prior : String) :
    (prior ++ e.bodyText wc).data ≠ [] := by
  simp only [String.data_append]
  intro h
  rcases List.append_eq_nil.1 h with ⟨_, h2⟩
  exact absurd (bodyText_has_tab e wc) (by simp [h2])

/-- Unfolding of the seekable branch of `Lex_Entry.dump_mordict`. -/
theorem dump_mordict_seekable (e : Lex_Entry) (wc : Bool) (prior : String) :
    Lex_Entry.dump_mordict e wc true prior
      = (match (prior ++ e.bodyText wc).data.getLast? with
         | some c => if c = '\n' ∨ c = '\r' then prior ++ e.bodyText wc
                     else (prior ++ e.bodyText wc) ++ "\n"
         | none => prior ++ e.bodyText wc) := rfl

/-- C8 (amended): a non-seekable sink always receives one unconditional
trailing newline (so the result ends with a newline, possibly a second
one); a seekable sink receives a newline exactly when the last character
already written is neither `'\n'` nor `'\r'`, so its result ends with a
newline or with a carriage return — but not necessarily with *exactly one*
newline. -/
theorem c8_newline_append_rule :
    ∀ (e : Lex_Entry) (wc : Bool) (prior : String),
      Lex_Entry.dump_mordict e wc false prior = (prior ++ e.bodyText wc) ++ "\n"
        ∧ Lex_Entry.dump_mordict e wc true prior =
            (if lastCharIsNlOrCr (prior ++ e.bodyText wc)
              then prior ++ e.bodyText wc
              else (prior ++ e.bodyText wc) ++ "\n")
        ∧ (Lex_Entry.dump_mordict e wc false prior).data.getLast? = some '\n'
        ∧ ((Lex_Entry.dump_mordict e wc true prior).data.getLast? = some '\n'
            ∨ (Lex_Entry.dump_mordict e wc true prior).data.getLast? = some '\r') := by
  intro e wc prior
  have hne := dump_full_ne e wc prior
  have hnl : ("\n" : String).data = ['\n'] := rfl
  refine ⟨rfl, ?_, ?_, ?_⟩
  · rcases hL : (prior ++ e.bodyText wc).data.getLast? with _ | c
    · exact absurd (List.getLast?_eq_none_iff.1 hL) hne
    · have hd : Lex_Entry.dump_mordict e wc true prior
          = (if c = '\n' ∨ c = '\r' then prior ++ e.bodyText wc
             else (prior ++ e.bodyText wc) ++ "\n") := by
        rw [dump_mordict_seekable, hL]
      rw [hd]
      unfold lastCharIsNlOrCr
      rw [hL]
      by_cases h1 : c = '\n' <;> by_cases h2 : c = '\r' <;> simp [h1, h2]
  · have h0 : Lex_Entry.dump_mordict e wc false prior
        = (prior ++ e.bodyText wc) ++ "\n" := rfl
    rw [h0, String.data_append, hnl, List.getLast?_concat]
  · rcases hL : (prior ++ e.bodyText wc).data.getLast? with _ | c
    · exact absurd (List.getLast?_eq_none_iff.1 hL) hne
    · have hd : Lex_Entry.dump_mordict e wc true prior
          = (if c = '\n' ∨ c = '\r' then prior ++ e.bodyText wc
             else (prior ++ e.bodyText wc) ++ "\n") := by
        rw [dump_mordict_seekable, hL]
      by_cases hc : c = '\n' ∨ c = '\r'
      · rw [hd, if_pos hc, hL]
        rcases hc with hc | hc
        · exact Or.inl (by rw [hc])
        · exact Or.inr (by rw [hc])
      · rw [hd, if_neg hc, String.data_append, hnl, List.getLast?_concat]
        exact Or.inl rfl

/-- The `foldl max` seed never exceeds the result. -/
theorem le_foldl_max_init : ∀ (l : List Nat) (a : Nat), a ≤ l.foldl max a
  | [], _ => le_refl _
  | x :: l, a =>
    le_trans (le_max_left a x) (le_foldl_max_init l (max a x))

/-- Every member of a list is bounded by its `foldl max`. -/
theorem le_foldl_max_of_mem :
    ∀ (l : List Nat) (a x : Nat), x ∈ l → x ≤ l.foldl max a
  | [], _, _, h => by cases h
  | y :: l, a, x, h => by
    rcases List.mem_cons.1 h with h | h
    · subst h
      exact le_trans (le_max_right a x) (le_foldl_max_init l (max a x))
    · exact le_foldl_max_of_mem l (max a y) x h

/-- A row's score never exceeds its own group's maximum. -/
theorem rowScore_le_groupMax (rows : List PdRow) (r : PdRow) (h : r ∈ rows) :
    rowScore r ≤ groupMaxScore rows r := by
  apply le_foldl_max_of_mem
  exact List.mem_map_of_mem rowScore (List.mem_filter.2 ⟨h, by simp⟩)

/-- C4 (counterexample): two rows with identical fingerprint at lines 50000
and 50001 where exactly one has a non-empty gloss — but the glossless row
carries two `comp` brackets.  Its score (2) is the group maximum, so the
glossed row (score 1) is the one masked: the claim's "only the row lacking
the Gloss becomes disabled" fails. -/
theorem c4_comp_beats_gloss :
    maskRedundant [rowC4a, rowC4b] = [rowC4a, { rowC4b with enabled := false }]
      ∧ rowC4a.gloss.value = "" ∧ rowC4b.gloss.value ≠ ""
      ∧ fingerprint rowC4a = fingerprint rowC4b
      ∧ rowC4a.line = 50000 ∧ rowC4b.line = 50001
      ∧ (maskRedundant [rowC4a, rowC4b]).map (fun r => r.enabled)
          = [true, false] :=
  ⟨rfl, rfl, by decide, rfl, rfl, rfl, rfl⟩

/-- C4 (amended): in the masking pipeline, the `i`-th output row is the
`i`-th input row with `enabled` forced to `false` exactly when its line
number exceeds 10000 and its score (`comp`-bracket count plus one for a
non-empty gloss) is strictly below its fingerprint group's maximum; every
other row is returned untouched.  The two-row scenario at lines
50000/50001 where exactly one row has a gloss masks only the glossless row
*provided the two rows' `comp` counts are equal*. -/
theorem c4_masking_rule :
    ∀ (rows : List PdRow),
      (maskRedundant rows).length = rows.length
        ∧ (∀ (i : Nat) (h1 : i < (maskRedundant rows).length)
            (h2 : i < rows.length),
            (maskRedundant rows).get ⟨i, h1⟩
              = (if (rows.get ⟨i, h2⟩).line > 10000
                    ∧ rowScore (rows.get ⟨i, h2⟩)
                        < groupMaxScore rows (rows.get ⟨i, h2⟩)
                  then { rows.get ⟨i, h2⟩ with enabled := false }
                  else rows.get ⟨i, h2⟩))
        ∧ (∀ r1 r2 : PdRow,
            fingerprint r1 = fingerprint r2 →
            r1.line = 50000 → r2.line = 50001 →
            compCount r1.cat = compCount r2.cat →
            r1.gloss.value = "" → r2.gloss.value ≠ "" →
            maskRedundant [r1, r2] = [{ r1 with enabled := false }, r2]) := by
  intro rows
  refine ⟨by simp [maskRedundant], ?_, ?_⟩
  · intro i h1 h2
    have hmem : rows.get ⟨i, h2⟩ ∈ rows := List.get_mem rows i h2
    have hle := rowScore_le_groupMax rows (rows.get ⟨i, h2⟩) hmem
    have hget : (maskRedundant rows).get ⟨i, h1⟩
        = (if (rows.get ⟨i, h2⟩).line > 10000
              ∧ rowScore (rows.get ⟨i, h2⟩)
                  ≠ groupMaxScore rows (rows.get ⟨i, h2⟩)
            then { rows.get ⟨i, h2⟩ with enabled := false }
            else rows.get ⟨i, h2⟩) := by
      simp [maskRedundant, List.get_eq_getElem, List.getElem_map]
    rw [hget]
    by_cases hl : (rows.get ⟨i, h2⟩).line > 10000
    · by_cases hs : rowScore (rows.get ⟨i, h2⟩)
          = groupMaxScore rows (rows.get ⟨i, h2⟩)
      · rw [if_neg (fun hh => hh.2 hs),
          if_neg (fun hh => absurd hs (ne_of_lt hh.2))]
      · rw [if_pos ⟨hl, hs⟩, if_pos ⟨hl, lt_of_le_of_ne hle hs⟩]
    · rw [if_neg (fun hh => hl hh.1), if_neg (fun hh => hl hh.1)]
  · intro r1 r2 hfp h1 h2 hcc hg1 hg2
    have hfps : fingerprint r2 = fingerprint r1 := hfp.symm
    have hs1 : rowScore r1 = compCount r1.cat := by simp [rowScore, hg1]
    have hs2 : rowScore r2 = compCount r1.cat + 1 := by
      simp [rowScore, hg2, hcc]
    have hgr1 : rowGroup [r1, r2] r1 = [r1, r2] := by simp [rowGroup, hfps]
    have hgr2 : rowGroup [r1, r2] r2 = [r1, r2] := by simp [rowGroup, hfp]
    have hm1 : groupMaxScore [r1, r2] r1 = compCount r1.cat + 1 := by
      simp [groupMaxScore, hgr1, hs1, hs2]
    have hm2 : groupMaxScore [r1, r2] r2 = compCount r1.cat + 1 := by
      simp [groupMaxScore, hgr2, hs1, hs2]
    have e1 : (if r1.line > 10000 ∧ rowScore r1 ≠ groupMaxScore [r1, r2] r1
          then { r1 with enabled := false } else r1)
        = { r1 with enabled := false } := by
      rw [if_pos]
      exact ⟨by rw [h1]; norm_num, by rw [hs1, hm1]; omega⟩
    have e2 : (if r2.line > 10000 ∧ rowScore r2 ≠ groupMaxScore [r1, r2] r2
          then { r2 with enabled := false } else r2) = r2 := by
      rw [if_neg]
      rintro ⟨-, hne⟩
      exact hne (by rw [hs2, hm2])
    simp only [maskRedundant, List.map_cons, List.map_nil]
    rw [e1, e2]

/-- Witness for `c4_masking_rule` at two concrete rows with equal `comp`
count, where the glossless row at line 50000 is the one masked. -/
theorem c4_masking_rule_witness :
    maskRedundant [rowC4w1, rowC4w2]
      = [{ rowC4w1 with enabled := false }, rowC4w2] :=
  (c4_masking_rule [rowC4w1, rowC4w2]).2.2 rowC4w1 rowC4w2
    rfl rfl rfl rfl rfl (by decide)

/-- Skipping ignored whitespace leaves a token character in place. -/
theorem skipWs_cons_of_not (c : Char) (r : List Char) (h : isWsInline c = false) :
    skipWs (c :: r) = c :: r := by
  simp [skipWs, List.dropWhile_cons, h]

/-- `takeWhile` runs through a block whose characters all satisfy the
predicate. -/
theorem takeWhile_all_append (p : Char → Bool) :
    ∀ (l1 l2 : List Char), (∀ c ∈ l1, p c = true) →
      (l1 ++ l2).takeWhile p = l1 ++ l2.takeWhile p
  | [], _, _ => rfl
  | c :: l1, l2, h => by
    have hc := h c (List.mem_cons_self c l1)
    simp only [List.cons_append, List.takeWhile_cons, hc, if_true]
    rw [takeWhile_all_append p l1 l2 (fun a ha => h a (List.mem_cons_of_mem c ha))]

/-- `dropWhile` runs through a block whose characters all satisfy the
predicate. -/
theorem dropWhile_all_append (p : Char → Bool) :
    ∀ (l1 l2 : List Char), (∀ c ∈ l1, p c = true) →
      (l1 ++ l2).dropWhile p = l2.dropWhile p
  | [], _, _ => rfl
  | c :: l1, l2, h => by
    have hc := h c (List.mem_cons_self c l1)
    simp only [List.cons_append, List.dropWhile_cons, hc, if_true]
    exact dropWhile_all_append p l1 l2 (fun a ha => h a (List.mem_cons_of_mem c ha))

/-- `_EOL*` consumes nothing when no end-of-line token is next. -/
theorem eolRun_of_stuck (f : Nat) (l : List Char)
    (h : parseEol (skipWs l) = none) : eolRun f l = l := by
  cases f <;> simp [eolRun, h]

theorem stopsCommentRun_iff (rest : List Char) :
    stopsCommentRun rest = true
      ↔ (skipWs rest).head? ≠ some '%' ∧ parseEol (skipWs rest) = none := by
  rw [stopsCommentRun, Bool.and_eq_true, bne_iff_ne, Option.isNone_iff_eq_none]

theorem render_cons (t : String) (ts : List String) (rest : List Char) :
    renderCommentLines (t :: ts) ++ rest
      = '%' :: (t.data ++ '\n' :: (renderCommentLines ts ++ rest)) := by
  simp [renderCommentLines]

theorem render_parseEol_none (ts : List String) (rest : List Char)
    (hrest : stopsCommentRun rest = true) :
    parseEol (skipWs (renderCommentLines ts ++ rest)) = none := by
  cases ts with
  | nil =>
    simpa [renderCommentLines] using ((stopsCommentRun_iff rest).1 hrest).2
  | cons t ts =>
    rw [render_cons, skipWs_cons_of_not '%' _ rfl]
    rfl

/-- Unfolding of `parseAdjComment` on a `%`-headed input. -/
theorem parseAdjComment_percent (f : Nat) (r : List Char) :
    parseAdjComment f ('%' :: r)
      = match parseEol (r.dropWhile (fun x => !(x == '\r' || x == '\n'))) with
        | some r2 =>
          some (.mk none
            (pyStrip ⟨r.takeWhile (fun x => !(x == '\r' || x == '\n'))⟩) [],
            eolRun f r2)
        | none => none := by
  rw [parseAdjComment, skipWs_cons_of_not '%' r rfl]
  rfl

/-- Parsing side of the comment-anchoring law: a run of `N` rendered comment
lines yields exactly `N` `Comment` nodes, in order, each carrying the
stripped text of its line, and consumes nothing of the continuation. -/
theorem c2_parse_adjcomments :
    ∀ (ts : List String) (rest : List Char) (fuel : Nat),
      (∀ t ∈ ts, t.data.all (fun c => !(c == '\r' || c == '\n')) = true) →
      stopsCommentRun rest = true →
      ts.length + 1 ≤ fuel →
      parseAdjComments fuel (renderCommentLines ts ++ rest)
        = some (ts.map (fun t => Comment.mk none (pyStrip t) []), rest) := by
  intro ts
  induction ts with
  | nil =>
    intro rest fuel hts hrest hfuel
    obtain ⟨f, rfl⟩ : ∃ f, fuel = f + 1 := ⟨fuel - 1, by omega⟩
    have hhead := ((stopsCommentRun_iff rest).1 hrest).1
    simp [renderCommentLines, parseAdjComments, hhead]
  | cons t ts ih =>
    intro rest fuel hts hrest hfuel
    obtain ⟨f, rfl⟩ : ∃ f, fuel = f + 1 := ⟨fuel - 1, by omega⟩
    have hf2 : ts.length + 1 ≤ f := by simp at hfuel; omega
    have hall : ∀ c ∈ t.data, (fun x => !(x == '\r' || x == '\n')) c = true := by
      have := hts t (List.mem_cons_self t ts)
      simpa [List.all_eq_true] using this
    have hAC : parseAdjComment f
        ('%' :: (t.data ++ '\n' :: (renderCommentLines ts ++ rest)))
        = some (.mk none (pyStrip t) [], renderCommentLines ts ++ rest) := by
      rw [parseAdjComment_percent]
      have htake : (t.data ++ '\n' :: (renderCommentLines ts ++ rest)).takeWhile
          (fun x => !(x == '\r' || x == '\n')) = t.data := by
        have := takeWhile_all_append (fun x => !(x == '\r' || x == '\n'))
          t.data ('\n' :: (renderCommentLines ts ++ rest)) hall
        simpa [List.takeWhile_cons] using this
      have hdrop : (t.data ++ '\n' :: (renderCommentLines ts ++ rest)).dropWhile
          (fun x => !(x == '\r' || x == '\n'))
          = '\n' :: (renderCommentLines ts ++ rest) := by
        have := dropWhile_all_append (fun x => !(x == '\r' || x == '\n'))
          t.data ('\n' :: (renderCommentLines ts ++ rest)) hall
        simpa [List.dropWhile_cons] using this
      rw [htake, hdrop]
      have heol : parseEol ('\n' :: (renderCommentLines ts ++ rest))
          = some (renderCommentLines ts ++ rest) := rfl
      simp only [heol, eolRun_of_stuck f _ (render_parseEol_none ts rest hrest)]
    have hskip : skipWs ('%' :: (t.data ++ '\n' :: (renderCommentLines ts ++ rest)))
        = '%' :: (t.data ++ '\n' :: (renderCommentLines ts ++ rest)) :=
      skipWs_cons_of_not '%' _ rfl
    have hcond : ('%' :: (t.data ++ '\n' :: (renderCommentLines ts ++ rest))).head?
        = some '%' := rfl
    rw [render_cons, parseAdjComments, hskip, if_pos hcond]
    simp only [hAC,
      ih rest f (fun a ha => hts a (List.mem_cons_of_mem t ha)) hrest hf2]
    simp

/-- Serialization side of the comment-anchoring law: dumping a comment list
re-emits exactly the comments with non-empty text, in order; empty-valued
comments vanish. -/
theorem c2_dump_filters_empty :
    ∀ (cs : List Comment), (∀ c ∈ cs, c.comments = []) →
      Comment.dumpList cs
        = concatStrings ((cs.filter (fun c => c.value ≠ "")).map
            (fun c => "% " ++ c.value ++ "\n"))
  | [], _ => rfl
  | c :: cs, h => by
    obtain ⟨m, v, cc⟩ := c
    have hcc : cc = [] := h _ (List.mem_cons_self _ _)
    subst hcc
    have ih := c2_dump_filters_empty cs (fun x hx => h x (List.mem_cons_of_mem _ hx))
    by_cases hv : v = ""
    · subst hv
      simp [Comment.dumpList, Comment.dump_mordict, List.filter_cons,
        Comment.value, ih, concatStrings]
    · simp [Comment.dumpList, Comment.dump_mordict, List.filter_cons,
        Comment.value, hv, ih, concatStrings]

/-- C2 (amended): for an item followed by `N` comment lines, parsing attaches
exactly `N` `Comment` nodes in source order (with surrounding whitespace
stripped from each text), but re-serializing with comments included
reproduces exactly those whose text is non-empty — a bare `%` line parses to
an empty-valued `Comment` that the serializer silently omits. -/
theorem c2_amended_comment_roundtrip :
    ∀ (ts : List String) (rest : List Char) (fuel : Nat) (cs : List Comment),
      (∀ t ∈ ts, t.data.all (fun c => !(c == '\r' || c == '\n')) = true) →
      stopsCommentRun rest = true →
      ts.length + 1 ≤ fuel →
      (∀ c ∈ cs, c.comments = []) →
      parseAdjComments fuel (renderCommentLines ts ++ rest)
          = some (ts.map (fun t => Comment.mk none (pyStrip t) []), rest)
        ∧ Comment.dumpList cs
          = concatStrings ((cs.filter (fun c => c.value ≠ "")).map
              (fun c => "% " ++ c.value ++ "\n")) :=
  fun ts rest fuel cs h1 h2 h3 h4 =>
    ⟨c2_parse_adjcomments ts rest fuel h1 h2 h3, c2_dump_filters_empty cs h4⟩

/-- Witness for `c2_amended_comment_roundtrip` at one comment line `%x` and
a singleton comment list. -/
theorem c2_amended_comment_roundtrip_witness :
    parseAdjComments 2 (renderCommentLines ["x"] ++ [])
        = some (["x"].map (fun t => Comment.mk none (pyStrip t) []), [])
      ∧ Comment.dumpList [Comment.mk none "y" []]
        = concatStrings (([Comment.mk none "y" []].filter
            (fun c => c.value ≠ "")).map (fun c => "% " ++ c.value ++ "\n")) :=
  c2_amended_comment_roundtrip ["x"] [] 2 [Comment.mk none "y" []]
    (by decide) (by decide) (by decide)
    (by intro c hc; simp at hc; subst hc; rfl)

/-- A column of `None` cells survives the truthiness filter as nothing. -/
theorem truthyStr_none {ξ : Type} (l : List ξ) :
    truthyStrCells (l.map fun _ => (none : Option String)) = [] := by
  induction l with
  | nil => rfl
  | cons x l ih => simp [truthyStrCells, List.filterMap_cons, ih]

theorem truthyMor_none {ξ : Type} (l : List ξ) :
    truthyMorCells (l.map fun _ => (none : Option WordAnalysisCandidates)) = [] := by
  induction l with
  | nil => rfl
  | cons x l ih => simp [truthyMorCells, List.filterMap_cons, ih]

theorem truthyStr_map_some (d : List String) :
    truthyStrCells (d.map some) = d.filter (fun s => s ≠ "") := by
  induction d with
  | nil => rfl
  | cons x d ih =>
    by_cases hx : x = "" <;>
      simp [truthyStrCells, List.filterMap_cons, List.filter_cons, hx] <;>
      simpa [truthyStrCells] using ih

theorem ts_zl2_fst {δ : Type} :
    ∀ (c : List String) (d : List δ),
      truthyStrCells ((zipLongest2 c d).map (fun p => p.1))
        = c.filter (fun s => s ≠ "")
  | [], d => by
    simp only [zipLongest2, List.map_map]
    show truthyStrCells (d.map fun _ => (none : Option String)) = _
    rw [truthyStr_none]
    rfl
  | x :: c, d => by
    by_cases hx : x = "" <;>
      simp [zipLongest2, truthyStrCells, List.filterMap_cons, List.filter_cons, hx] <;>
      simpa [truthyStrCells] using ts_zl2_fst c d.tail

theorem ts_zl2_snd {γ : Type} :
    ∀ (c : List γ) (d : List String),
      truthyStrCells ((zipLongest2 c d).map (fun p => p.2))
        = d.filter (fun s => s ≠ "")
  | [], d => by
    simp only [zipLongest2, List.map_map]
    show truthyStrCells (d.map some) = _
    exact truthyStr_map_some d
  | x :: c, [] => by
    simpa [zipLongest2, truthyStrCells, List.filterMap_cons]
      using ts_zl2_snd c []
  | x :: c, y :: d => by
    by_cases hy : y = "" <;>
      simp [zipLongest2, truthyStrCells, List.filterMap_cons, List.filter_cons, hy] <;>
      simpa [truthyStrCells] using ts_zl2_snd c d

theorem ts_zl3_1 {γ δ : Type} :
    ∀ (b : List String) (c : List γ) (d : List δ),
      truthyStrCells ((zipLongest3 b c d).map (fun p => p.1))
        = b.filter (fun s => s ≠ "")
  | [], c, d => by
    simp only [zipLongest3, List.map_map]
    show truthyStrCells ((zipLongest2 c d).map fun _ => (none : Option String)) = _
    rw [truthyStr_none]
    rfl
  | x :: b, c, d => by
    by_cases hx : x = "" <;>
      simp [zipLongest3, truthyStrCells, List.filterMap_cons, List.filter_cons, hx] <;>
      simpa [truthyStrCells] using ts_zl3_1 b c.tail d.tail

theorem ts_zl3_2 {β δ : Type} :
    ∀ (b : List β) (c : List String) (d : List δ),
      truthyStrCells ((zipLongest3 b c d).map (fun p => p.2.1))
        = c.filter (fun s => s ≠ "")
  | [], c, d => by
    simp only [zipLongest3, List.map_map]
    show truthyStrCells ((zipLongest2 c d).map (fun p => p.1)) = _
    exact ts_zl2_fst c d
  | x :: b, [], d => by
    simpa [zipLongest3, truthyStrCells, List.filterMap_cons]
      using ts_zl3_2 b [] d.tail
  | x :: b, y :: c, d => by
    by_cases hy : y = "" <;>
      simp [zipLongest3, truthyStrCells, List.filterMap_cons, List.filter_cons, hy] <;>
      simpa [truthyStrCells] using ts_zl3_2 b c d.tail

theorem ts_zl3_3 {β γ : Type} :
    ∀ (b : List β) (c : List γ) (d : List String),
      truthyStrCells ((zipLongest3 b c d).map (fun p => p.2.2))
        = d.filter (fun s => s ≠ "")
  | [], c, d => by
    simp only [zipLongest3, List.map_map]
    show truthyStrCells ((zipLongest2 c d).map (fun p => p.2)) = _
    exact ts_zl2_snd c d
  | x :: b, c, [] => by
    simpa [zipLongest3, truthyStrCells, List.filterMap_cons]
      using ts_zl3_3 b c.tail []
  | x :: b, c, y :: d => by
    by_cases hy : y = "" <;>
      simp [zipLongest3, truthyStrCells, List.filterMap_cons, List.filter_cons, hy] <;>
      simpa [truthyStrCells] using ts_zl3_3 b c.tail d

theorem tm_zl4_1 {β γ δ : Type} :
    ∀ (a : List WordAnalysisCandidates) (b : List β) (c : List γ) (d : List δ),
      truthyMorCells ((zipLongest4 a b c d).map (fun p => p.1))
        = a.map WordAnalysisCandidates.str
  | [], b, c, d => by
    simp only [zipLongest4, List.map_map]
    show truthyMorCells ((zipLongest3 b c d).map fun _ =>
      (none : Option WordAnalysisCandidates)) = _
    rw [truthyMor_none]
    rfl
  | x :: a, b, c, d => by
    simp [zipLongest4, truthyMorCells, List.filterMap_cons]
    simpa [truthyMorCells] using tm_zl4_1 a b.tail c.tail d.tail

theorem ts_zl4_2 {α γ δ : Type} :
    ∀ (a : List α) (b : List String) (c : List γ) (d : List δ),
      truthyStrCells ((zipLongest4 a b c d).map (fun p => p.2.1))
        = b.filter (fun s => s ≠ "")
  | [], b, c, d => by
    simp only [zipLongest4, List.map_map]
    show truthyStrCells ((zipLongest3 b c d).map (fun p => p.1)) = _
    exact ts_zl3_1 b c d
  | x :: a, [], c, d => by
    simpa [zipLongest4, truthyStrCells, List.filterMap_cons]
      using ts_zl4_2 a [] c.tail d.tail
  | x :: a, y :: b, c, d => by
    by_cases hy : y = "" <;>
      simp [zipLongest4, truthyStrCells, List.filterMap_cons, List.filter_cons, hy] <;>
      simpa [truthyStrCells] using ts_zl4_2 a b c.tail d.tail

theorem ts_zl4_3 {α β δ : Type} :
    ∀ (a : List α) (b : List β) (c : List String) (d : List δ),
      truthyStrCells ((zipLongest4 a b c d).map (fun p => p.2.2.1))
        = c.filter (fun s => s ≠ "")
  | [], b, c, d => by
    simp only [zipLongest4, List.map_map]
    show truthyStrCells ((zipLongest3 b c d).map (fun p => p.2.1)) = _
    exact ts_zl3_2 b c d
  | x :: a, b, [], d => by
    simpa [zipLongest4, truthyStrCells, List.filterMap_cons]
      using ts_zl4_3 a b.tail [] d.tail
  | x :: a, b, y :: c, d => by
    by_cases hy : y = "" <;>
      simp [zipLongest4, truthyStrCells, List.filterMap_cons, List.filter_cons, hy] <;>
      simpa [truthyStrCells] using ts_zl4_3 a b.tail c d.tail

theorem ts_zl4_4 {α β γ : Type} :
    ∀ (a : List α) (b : List β) (c : List γ) (d : List String),
      truthyStrCells ((zipLongest4 a b c d).map (fun p => p.2.2.2))
        = d.filter (fun s => s ≠ "")
  | [], b, c, d => by
    simp only [zipLongest4, List.map_map]
    show truthyStrCells ((zipLongest3 b c d).map (fun p => p.2.2)) = _
    exact ts_zl3_3 b c d
  | x :: a, b, c, [] => by
    simpa [zipLongest4, truthyStrCells, List.filterMap_cons]
      using ts_zl4_4 a b.tail c.tail []
  | x :: a, b, c, y :: d => by
    by_cases hy : y = "" <;>
      simp [zipLongest4, truthyStrCells, List.filterMap_cons, List.filter_cons, hy] <;>
      simpa [truthyStrCells] using ts_zl4_4 a b.tail c.tail d

theorem len_zl2 {γ δ : Type} :
    ∀ (c : List γ) (d : List δ),
      (zipLongest2 c d).length = max c.length d.length
  | [], d => by simp [zipLongest2]
  | x :: c, d => by
    simp [zipLongest2, len_zl2 c d.tail, List.length_tail]
    omega

theorem len_zl3 {β γ δ : Type} :
    ∀ (b : List β) (c : List γ) (d : List δ),
      (zipLongest3 b c d).length = max b.length (max c.length d.length)
  | [], c, d => by simp [zipLongest3, len_zl2]
  | x :: b, c, d => by
    simp [zipLongest3, len_zl3 b c.tail d.tail, List.length_tail]
    omega

theorem len_zl4 {α β γ δ : Type} :
    ∀ (a : List α) (b : List β) (c : List γ) (d : List δ),
      (zipLongest4 a b c d).length
        = max (max a.length b.length) (max c.length d.length)
  | [], b, c, d => by
    simp [zipLongest4, len_zl3]
  | x :: a, b, c, d => by
    simp [zipLongest4, len_zl4 a b.tail c.tail d.tail, List.length_tail]
    omega

/-- C10: serializing a `Sentence` built by the positional zip drops every
falsy cell — the `None` padding and (for the plain-string rows) the empty
strings — before joining, so each row shows exactly the original column
filtered of empty strings, while the word list itself is as long as the
longest column: the padding never survives serialization. -/
theorem c10_sentence_padding_dropped :
    ∀ (idnum chi : String) (mor : List WordAnalysisCandidates)
      (comb penn ort : List String),
      Sentence.str { id_str := idnum, chi := chi,
                     words := Word.iter_from_columns mor comb penn ort }
          = "*CHI:\t" ++ chi
            ++ "\n%mor:\t"
              ++ "\n\t".intercalate (mor.map WordAnalysisCandidates.str)
            ++ "\n%comb:\t" ++ " ".intercalate (comb.filter (fun s => s ≠ ""))
            ++ "\n%penn:\t" ++ " ".intercalate (penn.filter (fun s => s ≠ ""))
            ++ "\n%ort:\t" ++ " ".intercalate (ort.filter (fun s => s ≠ ""))
            ++ "\n@G:\t" ++ idnum ++ "\n"
        ∧ (Word.iter_from_columns mor comb penn ort).length
            = max (max mor.length comb.length) (max penn.length ort.length) := by
  intro idnum chi mor comb penn ort
  constructor
  · simp only [Sentence.str, Word.iter_from_columns, List.map_map,
      Function.comp_def]
    rw [tm_zl4_1, ts_zl4_2, ts_zl4_3, ts_zl4_4]
  · simp only [Word.iter_from_columns, List.length_map]
    exact len_zl4 mor comb penn ort
